import Mathlib

/-!
Verification development for the SEO domain-analysis pipeline
(`domain_analyzer.py`): crawl → extract → score → contextualize.

The Python source is shallowly embedded: dictionaries become structures,
floats become `Rat`, the DOM (BeautifulSoup tree) becomes an inductive
tree, the effectful crawl loop becomes a fuel-indexed transition loop over
an abstract fetch oracle, and Python's stdlib URL helpers (`urlparse`,
`urljoin`) are modelled by simplified pure parsers with the same component
structure (scheme/netloc/path/query split at "://" and the stop characters
'/', '?', '#').  Unicode-sensitive operations (`str.lower`, `\w`) are
modelled at ASCII precision, which is exact on every input appearing in
the claims.  Logging and the human-readable suggestion strings are pure
UI output and are not modelled.
-/

set_option maxRecDepth 4000

namespace SeoAnalyzer

/-! ## String helpers (Python `str.strip`, `re.sub(r"[\s　]+", ...)`,
substring containment `kw in s`, `str.lower`) -/

/-- Whitespace recognised by Python's `\s` plus the ideographic space
`　` that the source strips explicitly. -/
def isWsChar (c : Char) : Bool :=
  c = ' ' || c = '\t' || c = '\n' || c = '\r' || c = '\x0b' || c = '\x0c' || c = '　'

/-- Remove every whitespace character; models
`re.sub(r"[\s　]+", "", text)` used to count main-content characters. -/
def dropAllWs (s : String) : String :=
  String.mk (s.toList.filter (fun c => !isWsChar c))

/-- Drop characters satisfying `p` from both ends of a string. -/
def stripBoth (p : Char → Bool) (s : String) : String :=
  String.mk (((s.toList.dropWhile p).reverse.dropWhile p).reverse)

/-- Python `str.strip()` (no argument). -/
def pyStrip (s : String) : String := stripBoth isWsChar s

/-- Python `str.strip("/")`, used on URL paths before depth counting. -/
def stripSlashes (s : String) : String := stripBoth (fun c => c = '/') s

/-- Does `hay` start with `pat`? -/
def startsWith : List Char → List Char → Bool
  | _, [] => true
  | [], _ :: _ => false
  | c :: cs, d :: ds => c = d && startsWith cs ds

/-- Does `pat` occur as a contiguous sublist of `hay`? -/
def hasSubList (hay pat : List Char) : Bool :=
  match hay with
  | [] => pat.isEmpty
  | _ :: t => startsWith hay pat || hasSubList t pat

/-- Python's substring test `pat in hay`. -/
def strHas (hay pat : String) : Bool := hasSubList hay.toList pat.toList

/-- Python `str.lower()` (ASCII precision, exact on every claim input). -/
def strLower (s : String) : String := String.mk (s.toList.map Char.toLower)

/-! ## URL model (`urllib.parse.urlparse` / `urljoin`, simplified)

`urlparse` splits at the first occurrence of `"://"`; the netloc then runs
until the first of `'/'`, `'?'`, `'#'`; the path until `'?'` or `'#'`; the
query (after `'?'`) until `'#'`.  The fragment is dropped, matching how the
source only ever reads `scheme`, `netloc`, `path` and `query`. -/

/-- Split a character list at the first occurrence of `"://"`, returning
the part before (the scheme) and the part after. -/
def splitSchemeAux : List Char → Option (List Char × List Char)
  | [] => none
  | c :: rest =>
    if startsWith (c :: rest) [':', '/', '/'] then some ([], rest.drop 2)
    else
      match splitSchemeAux rest with
      | some (s, r) => some (c :: s, r)
      | none => none

/-- Characters ending the netloc component. -/
def isNetlocStop (c : Char) : Bool := c = '/' || c = '?' || c = '#'

/-- Characters ending the path component. -/
def isPathStop (c : Char) : Bool := c = '?' || c = '#'

/-- Components of a parsed URL, at character-list level. -/
structure UrlPartsL where
  scheme : List Char
  netloc : List Char
  path : List Char
  query : List Char
deriving DecidableEq, Repr

/-- The path component of what follows the netloc: everything up to
`'?'` or `'#'`. -/
def pathPart (l : List Char) : List Char := l.takeWhile (fun c => !isPathStop c)

/-- The query component: what follows a `'?'` after the path, up to
`'#'` (empty when there is no `'?'`). -/
def queryPart (l : List Char) : List Char :=
  match l.dropWhile (fun c => !isPathStop c) with
  | '?' :: qs => qs.takeWhile (fun c => c ≠ '#')
  | _ => []

/-- `urlparse` on a character list. -/
def parseUrlL (l : List Char) : UrlPartsL :=
  match splitSchemeAux l with
  | some (sch, rest) =>
    let nl := rest.takeWhile (fun c => !isNetlocStop c)
    let after := rest.dropWhile (fun c => !isNetlocStop c)
    ⟨sch, nl, pathPart after, queryPart after⟩
  | none => ⟨[], [], pathPart l, queryPart l⟩

/-- Components of a parsed URL, at string level. -/
structure UrlParts where
  scheme : String
  netloc : String
  path : String
  query : String
deriving DecidableEq, Repr

/-- `urllib.parse.urlparse`, restricted to the components the source reads. -/
def parseUrl (s : String) : UrlParts :=
  let u := parseUrlL s.toList
  ⟨String.mk u.scheme, String.mk u.netloc, String.mk u.path, String.mk u.query⟩

/-- The `netloc` component of a URL string (`urlparse(u).netloc`). -/
def urlNetloc (s : String) : List Char := (parseUrlL s.toList).netloc

/-- The directory part of a path: everything up to and including the last
`'/'` (empty when the path has no slash). -/
def dirPath (p : String) : String :=
  String.mk ((p.toList.reverse.dropWhile (fun c => c ≠ '/')).reverse)

/-- Simplified model of `urllib.parse.urljoin`: absolute hrefs pass
through, protocol-relative and root-relative hrefs borrow the base's
scheme/netloc, other hrefs are resolved against the base path's directory
(without `.`/`..` normalisation, which no claim exercises). -/
def urljoin (base href : String) : String :=
  if (splitSchemeAux href.toList).isSome then href
  else
    let b := parseUrl base
    if startsWith href.toList ['/', '/'] then b.scheme ++ ":" ++ href
    else if startsWith href.toList ['/'] then b.scheme ++ "://" ++ b.netloc ++ href
    else if href = "" then base
    else b.scheme ++ "://" ++ b.netloc ++ dirPath b.path ++ href

/-! ## Tokenizer and Jaccard similarity (`_tokenize`, `re.findall(r"\w+", ...)`) -/

/-- A `\w` word character (ASCII precision). -/
def isWordChar (c : Char) : Bool := c.isAlphanum || c = '_'

/-- Accumulator-based splitting of a character list into maximal `\w+` runs. -/
def wordRunsAux : List Char → List Char → List String
  | [], acc => if acc.isEmpty then [] else [String.mk acc.reverse]
  | c :: cs, acc =>
    if isWordChar c then wordRunsAux cs (c :: acc)
    else if acc.isEmpty then wordRunsAux cs []
    else String.mk acc.reverse :: wordRunsAux cs []

/-- Python `re.findall(r"\w+", s)`. -/
def findAllWords (s : String) : List String := wordRunsAux s.toList []

/-- `_tokenize`: lowercase, split into `\w+` runs, and collect into a set
(modelled as a first-occurrence-deduplicated list). -/
def tokenize (s : String) : List String := (findAllWords (strLower s)).dedup

/-- Size of the intersection of two token sets (`len(a & b)`); `a` is
expected deduplicated, as `tokenize` output always is. -/
def tokenInterCard (a b : List String) : Nat :=
  (a.filter (fun x => b.contains x)).length

/-- Size of the union of two token sets (`len(a | b)`). -/
def tokenUnionCard (a b : List String) : Nat :=
  ((a ++ b).dedup).length

/-- The page keyword set: `_tokenize(title + " " + " ".join(h1s))`. -/
def pageKeywordsOf (title : String) (h1s : List String) : List String :=
  tokenize (title ++ " " ++ String.intercalate " " h1s)

/-- Jaccard similarity of one anchor text against the page keyword set:
`intersection / max(union, 1)`.  Exact-rational division is written
`mkRat` throughout this file so that every value kernel-evaluates. -/
def anchorSimilarity (pageKw : List String) (anchor : String) : Rat :=
  let ak := tokenize anchor
  let inter := tokenInterCard pageKw ak
  let uni := tokenUnionCard pageKw ak
  mkRat inter (max uni 1)

/-- `link_relevance_score`: the fraction of internal anchor texts whose
Jaccard similarity to the page keywords strictly exceeds `0.2`; `0.0` when
there are no anchors or no page keywords. -/
def linkRelevanceScore (title : String) (h1s : List String)
    (anchors : List String) : Rat :=
  let pk := pageKeywordsOf title h1s
  if anchors.isEmpty || pk.isEmpty then 0
  else
    let relevant := (anchors.filter (fun a => anchorSimilarity pk a > mkRat 1 5)).length
    mkRat relevant (max anchors.length 1)

/-- `title_h1_sim`: Jaccard similarity of tokenized title and tokenized
first H1; `0.0` without an H1 or when both token sets are empty. -/
def titleH1SimOf (title : String) (h1s : List String) : Rat :=
  match h1s with
  | [] => 0
  | h :: _ =>
    let t := tokenize title
    let k := tokenize h
    let inter := tokenInterCard t k
    let uni := tokenUnionCard t k
    if uni = 0 then 0 else mkRat inter uni

/-- Python `round(q, n)` with `p = 10 ^ n`: the nearest multiple of
`1 / p`, halves rounding up
(`⌊q·p + 1/2⌋ / p = ⌊(2·p·num + den) / (2·den)⌋ / p`, spelled with integer
arithmetic so that it kernel-evaluates). -/
def roundAt (p : Int) (q : Rat) : Rat :=
  mkRat (Int.fdiv (2 * p * q.num + q.den) (2 * q.den)) p.toNat

/-- Python `round(q, 3)` on an exact rational. -/
def round3 (q : Rat) : Rat := roundAt 1000 q

/-- Python `round(q, 1)` on an exact rational. -/
def round1 (q : Rat) : Rat := roundAt 10 q

/-! ## DOM model (BeautifulSoup tree)

Only the attributes the analyzed functions read are kept: `class`, `id`,
`role` and `href`.  A parsed document is the `"[document]"` root element
(matching BeautifulSoup, whose root object is never returned by `find` /
`find_all` and carries no attributes). -/

/-- The element attributes read by the source. -/
structure Attrs where
  cls : List String
  idAttr : String
  role : String
  href : Option String
deriving DecidableEq, Repr

/-- An element with no attributes. -/
def noAttrs : Attrs := ⟨[], "", "", none⟩

mutual
/-- A DOM node: a text node or an element with children. -/
inductive Node where
  | text (s : String) : Node
  | elem (tag : String) (attrs : Attrs) (children : NodeList) : Node
deriving Repr
/-- A list of sibling DOM nodes (mutual spine, so that document-order
recursion is structural). -/
inductive NodeList where
  | nil : NodeList
  | cons (head : Node) (tail : NodeList) : NodeList
deriving Repr
end

/-- Build a `NodeList` from a `List Node`. -/
def nl : List Node → NodeList
  | [] => .nil
  | n :: ns => .cons n (nl ns)

/-- A document root wrapping top-level nodes. -/
def mkDoc (children : List Node) : Node := .elem "[document]" noAttrs (nl children)

/-- `' '.join(classes).lower()` as used by every class-keyword check. -/
def classJoin (a : Attrs) : String := strLower (String.intercalate " " a.cls)

/-! ### Navigation classification -/

/-- The navigation keyword set of `_extract_text_from_tag` and of the
whole-document fallback extraction (substring-matched against class/id). -/
def navigationKeywords : List String :=
  ["header", "footer", "nav", "menu", "navigation", "sidebar", "aside",
   "side", "breadcrumb"]

/-- Is an element excluded by `_extract_text_from_tag` (and the fallback):
a `header`/`footer`/`nav` tag, or any navigation keyword occurring in its
joined class string or its lowercased id? -/
def isExcludedElem (tag : String) (a : Attrs) : Bool :=
  tag = "header" || tag = "footer" || tag = "nav" ||
  navigationKeywords.any (fun k => strHas (classJoin a) k) ||
  navigationKeywords.any (fun k => strHas (strLower a.idAttr) k)

/-- The larger keyword set of `_is_navigation_element`. -/
def navigationKeywordsWide : List String :=
  ["header", "footer", "nav", "menu", "navigation",
   "sidebar", "aside", "side", "breadcrumb", "gnav", "global-nav",
   "hamburger", "drawer", "top-menu", "bottom-menu"]

/-- The ARIA roles of `_is_navigation_element`. -/
def navigationRoles : List String :=
  ["navigation", "banner", "contentinfo", "complementary"]

/-- The per-element test of `_is_navigation_element` (one step of the
ancestor walk): tag name, role, class keywords, id keywords. -/
def isNavElemSelf (tag : String) (a : Attrs) : Bool :=
  tag = "header" || tag = "footer" || tag = "nav" ||
  navigationRoles.contains a.role ||
  navigationKeywordsWide.any (fun k => strHas (classJoin a) k) ||
  navigationKeywordsWide.any (fun k => strHas (strLower a.idAttr) k)

/-! ### Text extraction (`_extract_text_from_tag` and the fallback)

The source collects the excluded descendant elements into a set and then,
for each text node, walks its ancestor chain; skipping the whole subtree
of each excluded element during a document-order traversal computes the
same list of text parts. -/

mutual
/-- Text parts contributed by one node: a stripped non-empty text node, or
the parts of a non-excluded element's children. -/
def textPartsNode : Node → List String
  | .text s => let t := pyStrip s; if t = "" then [] else [t]
  | .elem tag attrs children =>
    if isExcludedElem tag attrs then [] else textPartsList children
/-- Text parts of a sibling list, in document order. -/
def textPartsList : NodeList → List String
  | .nil => []
  | .cons n ns => textPartsNode n ++ textPartsList ns
end

/-- `_extract_text_from_tag`: the newline-joined text parts of the tag's
descendants, with navigation subtrees excluded (the tag itself is never
excluded). -/
def extractTextFromTag : Node → String
  | .text s => let t := pyStrip s; if t = "" then "" else t
  | .elem _ _ children => String.intercalate "\n" (textPartsList children)

/-- The whitespace-stripped character count of a tag's extracted text
(`len(re.sub(r"[\s　]+", "", text))`). -/
def extractCharCount (n : Node) : Nat := (dropAllWs (extractTextFromTag n)).length

/-- The fallback extraction (no candidate container): all text not inside
a `header`/`footer`/`nav` element or an element whose class/id matches a
navigation keyword, ancestor-chain exclusion included.  It applies the
same exclusion-and-collect logic as `_extract_text_from_tag`, over the
whole document. -/
def fallbackText (soup : Node) : String := extractTextFromTag soup

/-! ### `decompose` of script/style/noscript/template -/

/-- Tags removed before main-content detection. -/
def decomposedTags : List String := ["script", "style", "noscript", "template"]

mutual
/-- Remove decomposed subtrees from one node (`none` when the node itself
is removed). -/
def removeDecomposed : Node → Option Node
  | .text s => some (.text s)
  | .elem tag attrs children =>
    if decomposedTags.contains tag then none
    else some (.elem tag attrs (removeDecomposedList children))
/-- Remove decomposed subtrees from a sibling list. -/
def removeDecomposedList : NodeList → NodeList
  | .nil => .nil
  | .cons n ns =>
    match removeDecomposed n with
    | some m => .cons m (removeDecomposedList ns)
    | none => removeDecomposedList ns
end

/-- `for tag in soup(["script","style","noscript","template"]):
tag.decompose()` — the document root itself is never removed. -/
def decomposeSoup : Node → Node
  | .text s => .text s
  | .elem tag attrs children => .elem tag attrs (removeDecomposedList children)

/-! ### Candidate search (`soup.find`) -/

mutual
/-- `soup.find(tagName)`: first element with the given tag, in document
pre-order. -/
def findTagNode (name : String) : Node → Option Node
  | .text _ => none
  | .elem tag attrs children =>
    if tag = name then some (.elem tag attrs children)
    else findTagList name children
/-- `find` over a sibling list. -/
def findTagList (name : String) : NodeList → Option Node
  | .nil => none
  | .cons n ns =>
    match findTagNode name n with
    | some r => some r
    | none => findTagList name ns
end

mutual
/-- `soup.find(class_=c)`: first element whose class list contains `c`. -/
def findClassNode (c : String) : Node → Option Node
  | .text _ => none
  | .elem tag attrs children =>
    if attrs.cls.contains c then some (.elem tag attrs children)
    else findClassList c children
/-- `find(class_=c)` over a sibling list. -/
def findClassList (c : String) : NodeList → Option Node
  | .nil => none
  | .cons n ns =>
    match findClassNode c n with
    | some r => some r
    | none => findClassList c ns
end

/-- The content-class candidates, in the order the source tries them. -/
def contentClasses : List String :=
  ["entry-content", "post-content", "article-content", "blog-content",
   "content-body", "main-content"]

/-- The first content-class whose `find` succeeds (the loop `break`s on
the first hit). -/
def firstContentClassTag (soup : Node) : Option (String × Node) :=
  let rec go : List String → Option (String × Node)
    | [] => none
    | c :: cs =>
      match findClassNode c soup with
      | some e => some ("class:" ++ c, e)
      | none => go cs
  go contentClasses

/-- `candidate_tags`: the labelled candidate containers — `<article>`,
then the first matching content-class element, then `<main>`. -/
def candidateTagsOf (soup : Node) : List (String × Node) :=
  (match findTagNode "article" soup with
   | some e => [("article", e)] | none => []) ++
  (match firstContentClassTag soup with
   | some p => [p] | none => []) ++
  (match findTagNode "main" soup with
   | some e => [("main", e)] | none => [])

/-- The candidate-selection loop: the first candidate whose stripped
extracted text reaches 100 characters. -/
def selectCandidate : List (String × Node) → Option (String × Node)
  | [] => none
  | (lbl, t) :: rest =>
    if 100 ≤ extractCharCount t then some (lbl, t) else selectCandidate rest

/-- The main-content text of a document: decompose noise tags, collect the
candidates, take the first candidate with ≥ 100 stripped characters; if
none qualifies but candidates exist, use the first candidate; only with no
candidates at all, use the whole-document fallback extraction. -/
def mainContentTextOf (soup : Node) : String :=
  let s := decomposeSoup soup
  let cands := candidateTagsOf s
  match selectCandidate cands with
  | some (_, tag) => extractTextFromTag tag
  | none =>
    match cands with
    | (_, tag) :: _ => extractTextFromTag tag
    | [] => fallbackText s

/-- `body_char_count`: whitespace-stripped length of the main-content
text. -/
def bodyCharCountOf (soup : Node) : Nat := (dropAllWs (mainContentTextOf soup)).length

/-! ### Internal-link extraction (`_extract_internal_links`)

`find_all("a", href=True)` with the `_is_navigation_element` skip is a
document-order traversal carrying an "inside navigation" flag (the
ancestor walk of `_is_navigation_element` examines the tag itself and
every ancestor). -/

mutual
/-- Hrefs of non-navigation anchor tags in one node, document order.
`inNav` records whether some ancestor already classified as navigation. -/
def collectHrefsNode (inNav : Bool) : Node → List String
  | .text _ => []
  | .elem tag attrs children =>
    let nav := inNav || isNavElemSelf tag attrs
    (if tag = "a" && !nav then
      match attrs.href with
      | some h => [h]
      | none => []
     else []) ++ collectHrefsList nav children
/-- Hrefs over a sibling list. -/
def collectHrefsList (inNav : Bool) : NodeList → List String
  | .nil => []
  | .cons n ns => collectHrefsNode inNav n ++ collectHrefsList inNav ns
end

/-- Rebuild the cleaned URL
`f"{scheme}://{netloc}{path}"` plus `?query` when a query is present. -/
def rebuildUrlL (u : UrlPartsL) : List Char :=
  u.scheme ++ ':' :: '/' :: '/' :: (u.netloc ++ u.path ++
    (if u.query = [] then [] else '?' :: u.query))

/-- `_extract_internal_links`: non-navigation anchors, resolved against
the current URL, kept when their netloc equals the base domain's netloc,
rebuilt without fragments, set-deduplicated (modelled as first-occurrence
dedup) and capped at 20. -/
def extractInternalLinks (soup : Node) (currentUrl baseDomain : String) :
    List String :=
  let cleaned := (collectHrefsNode false soup).filterMap (fun href =>
    let full := urljoin currentUrl href
    let parsed := parseUrlL full.toList
    if parsed.netloc = (parseUrlL baseDomain.toList).netloc then
      some (String.mk (rebuildUrlL parsed))
    else none)
  cleaned.dedup.take 20

/-! ## PageSignals (`_extract_seo_elements` output dictionary)

Fields are the extraction results the scorer and the contextual evaluator
read; the three score keys that `_apply_comprehensive_seo_scoring` writes
into the same dictionary are `Option` fields, `none` at extraction time. -/

/-- The `headings` sub-dictionary. -/
structure Headings where
  h1 : List String
  h2 : List String
  h3 : List String
deriving DecidableEq, Repr

/-- The individual check results the scorer stores (`check_results`). -/
structure CheckResults where
  indexable : Bool
  canonical : Bool
  urlShallow : Bool
  headingsHierarchy : Bool
  internalLinksMin : Bool
  anchorDiversityMin : Bool
  bodyWordsEnough : Bool
  titleH1Aligned : Bool
  readabilityBlocks : Bool
  altOk : Bool
  h1Exists : Bool
  howtoFaqToc : Bool
  freshnessSign : Bool
deriving DecidableEq, Repr

/-- One category's entry in `category_scores`. -/
structure CategoryScore where
  score : Nat
  maxPts : Nat
  percentage : Rat
deriving DecidableEq, Repr

/-- The `category_scores` dictionary (technical / content / planning). -/
structure CategoryScores where
  technical : CategoryScore
  content : CategoryScore
  planning : CategoryScore
deriving DecidableEq, Repr

/-- A crawled page's extracted facts plus the optional score fields the
scorer writes into the same record. -/
structure PageData where
  url : String
  title : String
  description : String
  metaKeywords : String
  metaKeywordsList : List String
  headings : Headings
  imagesTotal : Nat
  imagesWithoutAlt : Nat
  imagesTotalForAlt : Nat
  bodyCharCount : Nat
  bodyWordCount : Nat
  hasOrderedList : Bool
  hasUnorderedList : Bool
  hasTable : Bool
  hasCode : Bool
  faqLike : Bool
  howtoLike : Bool
  tocLike : Bool
  updatedMention : Bool
  internalLinksCount : Nat
  anchorDiversity : Rat
  linkRelevance : Rat
  titleH1Similarity : Rat
  robotsContent : String
  canonicalUrl : String
  comprehensiveScore : Option Nat
  categoryScores : Option CategoryScores
  checkResults : Option CheckResults
deriving DecidableEq, Repr

/-! ## Category Scorer (`_apply_comprehensive_seo_scoring`) -/

/-- `path_depth = len(urlparse(url).path.strip("/").split("/")) if url
else 0`.  Python `str.split(sep)` on an empty string yields `[""]`, so an
empty stripped path still has depth 1; the character-level split below
reproduces that. -/
def splitOnChar (sep : Char) : List Char → List (List Char)
  | [] => [[]]
  | c :: cs =>
    match splitOnChar sep cs with
    | [] => [[]]
    | h :: t => if c = sep then [] :: h :: t else (c :: h) :: t

/-- URL path depth as the scorer computes it. -/
def pathDepthOf (url : String) : Nat :=
  if url = "" then 0
  else (splitOnChar '/' (stripSlashes (parseUrl url).path).toList).length

/-- The alt-attribute ratio `(img_total - img_wo_alt) / img_total`. -/
def altRatioOf (imgTotal imgWoAlt : Nat) : Rat :=
  mkRat ((imgTotal : Int) - (imgWoAlt : Int)) imgTotal

/-- The twelve binary checks of the fixed rubric, computed from one
`PageData` exactly as the scorer's branch conditions do. -/
def computeChecks (p : PageData) : CheckResults where
  indexable := !strHas p.robotsContent "noindex"
  canonical := p.canonicalUrl ≠ ""
  urlShallow := pathDepthOf p.url ≤ 3
  headingsHierarchy := !p.headings.h1.isEmpty && (!p.headings.h2.isEmpty || !p.headings.h3.isEmpty)
  internalLinksMin := 5 ≤ p.internalLinksCount
  anchorDiversityMin := mkRat 3 10 ≤ p.anchorDiversity
  bodyWordsEnough := 800 ≤ p.bodyCharCount
  titleH1Aligned := mkRat 1 2 ≤ p.titleH1Similarity
  readabilityBlocks := p.hasOrderedList || p.hasUnorderedList || p.hasTable || p.hasCode
  altOk := p.imagesTotalForAlt = 0 || mkRat 3 5 ≤ altRatioOf p.imagesTotalForAlt p.imagesWithoutAlt
  h1Exists := !p.headings.h1.isEmpty
  howtoFaqToc := p.howtoLike || p.faqLike || p.tocLike
  freshnessSign := p.updatedMention

/-- `if cond: score += w` contribution of one check. -/
def checkScore (b : Bool) (w : Nat) : Nat := if b then w else 0

/-- Technical category points (max 40): indexable 10, canonical 8, URL
depth 6, heading hierarchy 8, internal links joint check 8. -/
def technicalScore (r : CheckResults) : Nat :=
  checkScore r.indexable 10 + checkScore r.canonical 8 +
  checkScore r.urlShallow 6 + checkScore r.headingsHierarchy 8 +
  checkScore (r.internalLinksMin && r.anchorDiversityMin) 8

/-- Content category points (max 40): body chars 10, title/H1 8,
readability blocks 10, alt ratio 6, H1 present 6. -/
def contentScore (r : CheckResults) : Nat :=
  checkScore r.bodyWordsEnough 10 + checkScore r.titleH1Aligned 8 +
  checkScore r.readabilityBlocks 10 + checkScore r.altOk 6 +
  checkScore r.h1Exists 6

/-- Planning category points (max 20): HowTo/FAQ/ToC 10, freshness 10. -/
def planningScore (r : CheckResults) : Nat :=
  checkScore r.howtoFaqToc 10 + checkScore r.freshnessSign 10

/-- The comprehensive score: the scorer's running total, which equals the
sum of the three category sums because each `score += w` uses the same
condition as the category recomputation. -/
def comprehensiveScoreOf (r : CheckResults) : Nat :=
  technicalScore r + contentScore r + planningScore r

/-- `percentage = round(100 * score / max, 1)`. -/
def percentageOf (score maxPts : Nat) : Rat := round1 (mkRat (100 * score) maxPts)

/-- `_apply_comprehensive_seo_scoring`: computes the twelve checks and the
category sums and writes `comprehensive_score`, `category_scores` and
`check_results` into the page record it was given, returning that same
record (the extraction fields pass through unchanged). -/
def applyComprehensiveSeoScoring (p : PageData) : PageData :=
  let r := computeChecks p
  { p with
    comprehensiveScore := some (comprehensiveScoreOf r)
    categoryScores := some
      ⟨⟨technicalScore r, 40, percentageOf (technicalScore r) 40⟩,
       ⟨contentScore r, 40, percentageOf (contentScore r) 40⟩,
       ⟨planningScore r, 20, percentageOf (planningScore r) 20⟩⟩
    checkResults := some r }

/-! ## Site summary and Contextual Evaluator
(`_summarize_site_structure` output shape,
`_evaluate_page_with_site_context`) -/

/-- The aggregate site-structure summary the evaluator reads. -/
structure SiteSummary where
  pageCount : Nat
  depthDistribution : List (Nat × Nat)
  topKeywords : List (String × Nat)
  avgInternalLinks : Rat
  avgWordCount : Rat
deriving Repr

/-- The contextual evaluation result (the human-readable `suggestions`
strings are UI text and are not modelled). -/
structure ContextualEvaluation where
  contextualScore : Int
  baseScore : Nat
  adjustments : List (String × Int)
deriving Repr

/-- Adjustment section 1 — internal-link quantity and relevance:
0 links → −5; ≤ 2 → −3; ≥ 3 with relevance < 0.4 → −2; ≥ 3 with
relevance ≥ 0.6 → +2.  Each branch records the adjustment entry and adds
the same value to the running bonus, as the source does. -/
def adjInternalLinks (links : Nat) (relevance : Rat) : List (String × Int) × Int :=
  if links = 0 then ([("internal_links", -5)], -5)
  else if links ≤ 2 then ([("internal_links", -3)], -3)
  else if 3 ≤ links ∧ relevance < mkRat 2 5 then ([("internal_links", -2)], -2)
  else if 3 ≤ links ∧ mkRat 3 5 ≤ relevance then ([("internal_links", 2)], 2)
  else ([], 0)

/-- Adjustment section 2 — content volume: < 400 chars → −2; ≥ 2000 → +2. -/
def adjContentVolume (chars : Nat) : List (String × Int) × Int :=
  if chars < 400 then ([("content_volume", -2)], -2)
  else if 2000 ≤ chars then ([("content_volume", 2)], 2)
  else ([], 0)

/-- `page_depth = len(path.split("/")) if path else 0` — note the
evaluator tests the stripped path itself, unlike the scorer's
`if url` guard. -/
def pageDepthOf (url : String) : Nat :=
  let path := stripSlashes (parseUrl url).path
  if path = "" then 0 else (splitOnChar '/' path.toList).length

/-- Adjustment section 3 — URL depth > 4 → −2. -/
def adjUrlDepth (url : String) : List (String × Int) × Int :=
  if 4 < pageDepthOf url then ([("url_depth", -2)], -2) else ([], 0)

/-- Adjustment section 4 — site-keyword alignment: a top-5 site keyword
occurring (substring, lowercased) in the title or the joined H1 text
→ +3; top keywords exist but none occurs → −2. -/
def adjKeywordAlignment (topKw : List String) (title h1joined : String) :
    List (String × Int) × Int :=
  let pageTitle := strLower title
  let pageH1 := strLower h1joined
  let matched := (topKw.take 5).any (fun kw =>
    strHas pageTitle (strLower kw) || strHas pageH1 (strLower kw))
  if !matched && !topKw.isEmpty then ([("keyword_alignment", -2)], -2)
  else if matched then ([("keyword_alignment", 3)], 3)
  else ([], 0)

/-- Adjustment section 5 — meta-keyword alignment, when both meta
keywords and top keywords exist: overlap ratio
`|set(meta) ∩ set(top10)| / len(meta)`; < 0.3 → −2; ≥ 0.7 → +2. -/
def adjMetaKeywords (metaKeywordsList topKw : List String) :
    List (String × Int) × Int :=
  if metaKeywordsList.isEmpty || topKw.isEmpty then ([], 0)
  else
    let metaLower := metaKeywordsList.map strLower
    let siteLower := (topKw.take 10).map strLower
    let common := metaLower.dedup.filter (fun m => siteLower.contains m)
    let ratio := mkRat common.length metaLower.length
    if ratio < mkRat 3 10 then ([("meta_keywords_alignment", -2)], -2)
    else if mkRat 7 10 ≤ ratio then ([("meta_keywords_alignment", 2)], 2)
    else ([], 0)

/-- `_evaluate_page_with_site_context`: score the page (on a copy), apply
the five additive adjustment sections, and clamp the final score to
`[0, 100]`. -/
def evaluatePageWithSiteContext (page : PageData) (summary : SiteSummary) :
    ContextualEvaluation :=
  let scored := applyComprehensiveSeoScoring page
  let base := scored.comprehensiveScore.getD 0
  let topKw := summary.topKeywords.map Prod.fst
  let s1 := adjInternalLinks page.internalLinksCount page.linkRelevance
  let s2 := adjContentVolume page.bodyCharCount
  let s3 := adjUrlDepth page.url
  let s4 := adjKeywordAlignment topKw page.title (String.intercalate " " page.headings.h1)
  let s5 := adjMetaKeywords page.metaKeywordsList topKw
  let bonus := s1.2 + s2.2 + s3.2 + s4.2 + s5.2
  { contextualScore := max 0 (min 100 ((base : Int) + bonus))
    baseScore := base
    adjustments := s1.1 ++ s2.1 ++ s3.1 ++ s4.1 ++ s5.1 }

/-! ## Robots-policy gate and crawler (`_setup_robots_parser`,
`_crawl_pages`)

The network is an oracle `world : String → FetchOutcome`; a successful
HTML fetch carries the parsed document.  Each call of `requests.get` is
recorded in `log`.  One `PageSignals` record is produced per success, so
`results` keeps the URLs of the extracted records. -/

/-- Outcome of one `requests.get`: parsed 200 HTML, a non-200 status, a
non-HTML content type, or a raised timeout / connection error.  The last
three are handled identically (mark visited, continue). -/
inductive FetchOutcome where
  | ok (soup : Node)
  | badStatus
  | notHtml
  | netError

/-- Outcome of the robots.txt request inside `RobotFileParser.read()`
(`urllib.request.urlopen`): a successful response whose lines parse into
per-agent rules, an `HTTPError` carrying a status code (which `read`
catches itself), or a network-level error (`URLError`, timeout), which
`read` does not catch and which therefore propagates as an exception. -/
inductive RobotsFetchOutcome where
  | ok (rules : String → String → Bool)
  | httpError (code : Nat)
  | netError (msg : String)

/-- The `RobotFileParser` state `read()` leaves behind: `disallow_all`,
`allow_all`, whether `last_checked` was set (only `parse()` sets it),
and the parsed per-agent decision (`True` with no entries; unreachable
behind the `last_checked` guard when nothing was parsed). -/
structure RobotsParserState where
  disallowAll : Bool
  allowAll : Bool
  lastChecked : Bool
  rules : String → String → Bool

/-- `RobotFileParser.read()`, modelled from the Python 3 standard
library the source calls: a 200 response is parsed (setting
`last_checked`); an `HTTPError` is caught inside `read` — 401/403 set
`disallow_all`, any other 4xx sets `allow_all`, and any other code
changes nothing, leaving `last_checked` at 0 — so none of these raises;
only a network-level error escapes as an exception. -/
def robotsRead (fetch : RobotsFetchOutcome) : Except String RobotsParserState :=
  match fetch with
  | .ok rules => .ok ⟨false, false, true, rules⟩
  | .httpError code =>
    if code = 401 ∨ code = 403 then .ok ⟨true, false, false, fun _ _ => true⟩
    else if 400 ≤ code ∧ code < 500 then .ok ⟨false, true, false, fun _ _ => true⟩
    else .ok ⟨false, false, false, fun _ _ => true⟩
  | .netError msg => .error msg

/-- `RobotFileParser.can_fetch`: deny everything under `disallow_all`,
allow everything under `allow_all`, deny everything while the file has
never been read (`last_checked` falsy), else apply the parsed rules. -/
def canFetch (st : RobotsParserState) (userAgent url : String) : Bool :=
  if st.disallowAll then false
  else if st.allowAll then true
  else if !st.lastChecked then false
  else st.rules userAgent url

/-- `_setup_robots_parser`: whatever parser object `read()` produced is
returned as-is; only a raised exception is caught, logged, and turned
into `None`. -/
def setupRobotsParser (readResult : Except String RobotsParserState) :
    Option RobotsParserState :=
  match readResult with
  | .ok rp => some rp
  | .error _ => none

/-- The robots handle `_crawl_pages` consults: the `can_fetch` method of
the parser `_setup_robots_parser` returned, when it returned one. -/
def robotsHandle (readResult : Except String RobotsParserState) :
    Option (String → String → Bool) :=
  (setupRobotsParser readResult).map canFetch

/-- Crawl-session configuration. -/
structure CrawlConfig where
  world : String → FetchOutcome
  maxPages : Nat
  robots : Option (String → String → Bool)
  userAgent : String
  baseDomain : String

/-- Crawl-session state: `visited` set (as a list), FIFO `frontier`
(`to_visit`), successful extraction `results`, and the fetch `log`. -/
structure CrawlState where
  visited : List String
  frontier : List String
  results : List String
  log : List String
deriving DecidableEq, Repr

/-- Append each link not already visited and not already queued
(`if link not in visited and link not in to_visit: to_visit.append`). -/
def addLinks (visited : List String) (frontier : List String) :
    List String → List String
  | [] => frontier
  | l :: ls =>
    if l ∈ visited ∨ l ∈ frontier then addLinks visited frontier ls
    else addLinks visited (frontier ++ [l]) ls

/-- One loop iteration: `done` when the `while` condition fails, else the
successor state. -/
inductive StepResult where
  | done
  | next (s : CrawlState)

/-- `robot_parser and not robot_parser.can_fetch(ua, url)`: blocked only
when a parser exists and denies the URL. -/
def robotsBlocked (cfg : CrawlConfig) (url : String) : Bool :=
  match cfg.robots with
  | some canFetch => !canFetch cfg.userAgent url
  | none => false

/-- One iteration of the crawl loop: pop the next URL; skip if visited;
skip and mark visited if robots-blocked; otherwise fetch (logging the
request), and on success extract, append the result and enqueue the
page's same-domain links while the budget allows. -/
def crawlStep (cfg : CrawlConfig) (s : CrawlState) : StepResult :=
  match s.frontier with
  | [] => .done
  | url :: rest =>
    if cfg.maxPages ≤ s.results.length then .done
    else if url ∈ s.visited then .next { s with frontier := rest }
    else if robotsBlocked cfg url then
      .next { s with frontier := rest, visited := url :: s.visited }
    else
      match cfg.world url with
      | .ok soup =>
        let visited' := url :: s.visited
        let results' := s.results ++ [url]
        let frontier' :=
          if results'.length < cfg.maxPages then
            addLinks visited' rest (extractInternalLinks soup url cfg.baseDomain)
          else rest
        .next ⟨visited', frontier', results', s.log ++ [url]⟩
      | .badStatus =>
        .next { s with frontier := rest, visited := url :: s.visited, log := s.log ++ [url] }
      | .notHtml =>
        .next { s with frontier := rest, visited := url :: s.visited, log := s.log ++ [url] }
      | .netError =>
        .next { s with frontier := rest, visited := url :: s.visited, log := s.log ++ [url] }

/-- The crawl loop, fuel-indexed: `none` when the fuel runs out before
the loop finishes (the Python loop always terminates, so every finished
run is `some`). -/
def crawlLoop (cfg : CrawlConfig) : Nat → CrawlState → Option CrawlState
  | 0, _ => none
  | fuel + 1, s =>
    match crawlStep cfg s with
    | .done => some s
    | .next s' => crawlLoop cfg fuel s'

/-- Initial crawl state: nothing visited, the start URL queued. -/
def initState (start : String) : CrawlState := ⟨[], [start], [], []⟩

/-- `_crawl_pages` from the start URL. -/
def crawlPages (fuel : Nat) (cfg : CrawlConfig) (start : String) :
    Option CrawlState :=
  crawlLoop cfg fuel (initState start)

/-- The URLs reachable by the crawler's own link extraction: the start
URL, plus every link `_extract_internal_links` returns on a successfully
fetched reachable page. -/
inductive Reach (cfg : CrawlConfig) (start : String) : String → Prop
  | base : Reach cfg start start
  | step {u v : String} {soup : Node} : Reach cfg start u →
      cfg.world u = .ok soup →
      v ∈ extractInternalLinks soup u cfg.baseDomain → Reach cfg start v

/-! ## Concrete inputs used by the claims -/

/-- The spec's example page: title "Buy Widgets Online", first H1
"Widgets" (plus an H2, the reading that lets the heading-hierarchy check
pass), 900 main-content characters, one unordered list, 4 internal links
with anchor diversity 0.5, canonical present, robots meta absent, no
planning signals.  The similarity fields hold exactly what extraction
computes for these strings. -/
def widgetsPage : PageData where
  url := "https://example.com/widgets"
  title := "Buy Widgets Online"
  description := "Widgets for every need"
  metaKeywords := ""
  metaKeywordsList := []
  headings := ⟨["Widgets"], ["Widget Specs"], []⟩
  imagesTotal := 0
  imagesWithoutAlt := 0
  imagesTotalForAlt := 0
  bodyCharCount := 900
  bodyWordCount := 150
  hasOrderedList := false
  hasUnorderedList := true
  hasTable := false
  hasCode := false
  faqLike := false
  howtoLike := false
  tocLike := false
  updatedMention := false
  internalLinksCount := 4
  anchorDiversity := round3 (mkRat 2 4)
  linkRelevance := 0
  titleH1Similarity := round3 (titleH1SimOf "Buy Widgets Online" ["Widgets"])
  robotsContent := ""
  canonicalUrl := "https://example.com/widgets"
  comprehensiveScore := none
  categoryScores := none
  checkResults := none

/-- The page-keyword set of the link-relevance example (title "SEO
Guide", first H1 "SEO Guide for Beginners"). -/
def seoGuideKeywords : List String :=
  pageKeywordsOf "SEO Guide" ["SEO Guide for Beginners"]

/-- A freshly extracted page for the immutability claim (score fields
still `none`). -/
def freshPage : PageData where
  url := "https://site.example/blog/post"
  title := "A Post"
  description := ""
  metaKeywords := ""
  metaKeywordsList := []
  headings := ⟨["A Post"], [], []⟩
  imagesTotal := 2
  imagesWithoutAlt := 1
  imagesTotalForAlt := 1
  bodyCharCount := 500
  bodyWordCount := 90
  hasOrderedList := false
  hasUnorderedList := false
  hasTable := false
  hasCode := false
  faqLike := false
  howtoLike := false
  tocLike := false
  updatedMention := false
  internalLinksCount := 1
  anchorDiversity := 1
  linkRelevance := 0
  titleH1Similarity := 1
  robotsContent := ""
  canonicalUrl := ""
  comprehensiveScore := none
  categoryScores := none
  checkResults := none

/-- A document whose only candidate container (`<article>`) extracts
fewer than 100 stripped characters while the rest of the body holds far
more text: the selection loop finds no qualifying candidate, and the
source then uses that first candidate, not the whole-body fallback. -/
def shortArticleSoup : Node :=
  mkDoc
    [Node.elem "html" noAttrs (nl
      [Node.elem "body" noAttrs (nl
        [Node.elem "article" noAttrs (nl [Node.text "Too short."]),
         Node.elem "div" noAttrs (nl
           [Node.text "This surrounding body copy is long enough that the whole-document fallback extraction would return well over one hundred characters of text content in total."])])])]

/-- An anchor element with the given href and anchor text. -/
def aLink (href text : String) : Node :=
  Node.elem "a" ⟨[], "", "", some href⟩ (nl [Node.text text])

/-- The example site's home page: five same-domain links in the main
content. -/
def homeSoup : Node :=
  mkDoc
    [Node.elem "body" noAttrs (nl
      [Node.elem "main" noAttrs (nl
        [Node.text "Welcome to the example site.",
         aLink "https://crawl.example/a" "alpha page",
         aLink "https://crawl.example/b" "beta page",
         aLink "https://crawl.example/c" "gamma page",
         aLink "https://crawl.example/d" "delta page",
         aLink "https://crawl.example/e" "epsilon page"])])]

/-- A leaf page of the example site: content but no links. -/
def leafSoup : Node :=
  mkDoc
    [Node.elem "body" noAttrs (nl
      [Node.elem "main" noAttrs (nl [Node.text "A quiet leaf page."])])]

/-- The example crawl session: every URL fetches successfully (the home
page links to five others, all other pages are leaves), budget 5 pages,
no robots policy. -/
def exampleCfg : CrawlConfig where
  world := fun u => if u = "https://crawl.example/" then .ok homeSoup else .ok leafSoup
  maxPages := 5
  robots := none
  userAgent := "SEO-Analysis-Bot/1.0"
  baseDomain := "https://crawl.example"

/-- The example crawl's start URL. -/
def exampleStart : String := "https://crawl.example/"

/-! ## Helper lemmas -/

theorem mkRat_eq_div' (n : Int) (d : Nat) : mkRat n d = (n : Rat) / (d : Rat) := by
  rw [Rat.mkRat_eq_div]

theorem checkScore_true (w : Nat) : checkScore true w = w := rfl

theorem checkScore_false (w : Nat) : checkScore false w = 0 := rfl

/-- Flipping only the body-character check adds exactly its weight to the
comprehensive score. -/
theorem comprehensiveScore_flip_body (r : CheckResults) :
    comprehensiveScoreOf { r with bodyWordsEnough := true } =
      comprehensiveScoreOf { r with bodyWordsEnough := false } + 10 := by
  cases r
  simp only [comprehensiveScoreOf, technicalScore, contentScore, planningScore,
    checkScore_true, checkScore_false]
  omega

/-- Setting a field to the value it already has is the identity. -/
theorem checkResults_eta_body (r : CheckResults) (h : r.bodyWordsEnough = false) :
    { r with bodyWordsEnough := false } = r := by
  cases r
  simp_all

/-- The candidate-selection loop is `List.find?` with the 100-character
predicate. -/
theorem selectCandidate_eq_find (l : List (String × Node)) :
    selectCandidate l = l.find? (fun p => decide (100 ≤ extractCharCount p.2)) := by
  induction l with
  | nil => rfl
  | cons hd tl ih =>
    obtain ⟨lbl, t⟩ := hd
    by_cases h : 100 ≤ extractCharCount t <;>
      simp [selectCandidate, List.find?, h, ih]

/-! ## Claim theorems -/

/-- C1 (counterexample): on the page the claim describes — title "Buy
Widgets Online", first H1 "Widgets", 900 main-content characters, one
unordered list, 4 internal links at diversity 0.5, canonical present,
robots meta absent — the Content category does **not** reach 40/40 and
the comprehensive score is **not** 72: the title/H1 alignment check fails
because the extracted similarity is round(1/3, 3) ≈ 0.333 < 0.5. -/
theorem c1_example_scores_counterexample :
    ((applyComprehensiveSeoScoring widgetsPage).categoryScores.map
        fun c => c.content.score) ≠ some 40 ∧
    (applyComprehensiveSeoScoring widgetsPage).comprehensiveScore ≠ some 72 := by
  decide

/-- C1 (amended): on that page the scorer returns Technical = 32/40 (the
internal-links check fails at 4 < 5), Content = 32/40 (the title/H1
alignment check fails: similarity round(1/3,3) < 0.5), Planning = 0/20,
and comprehensiveScore = 64. -/
theorem c1_example_scores :
    ((applyComprehensiveSeoScoring widgetsPage).categoryScores.map
        fun c => c.technical.score) = some 32 ∧
    ((applyComprehensiveSeoScoring widgetsPage).categoryScores.map
        fun c => c.content.score) = some 32 ∧
    ((applyComprehensiveSeoScoring widgetsPage).categoryScores.map
        fun c => c.planning.score) = some 0 ∧
    (applyComprehensiveSeoScoring widgetsPage).comprehensiveScore = some 64 ∧
    widgetsPage.titleH1Similarity = round3 (mkRat 1 3) ∧
    (computeChecks widgetsPage).titleH1Aligned = false ∧
    (computeChecks widgetsPage).internalLinksMin = false := by
  decide

/-- C6 (counterexample): with page title "SEO Guide" and first H1 "SEO
Guide for Beginners", the anchor "seo tips" does **not** get Jaccard
similarity 1/4 and is **not** counted relevant: the tokenizer keeps the
word "for", so the similarity is 1/5 = 0.2, which does not strictly
exceed the 0.2 threshold; the relevant-anchor fraction is 0. -/
theorem c6_link_relevance_counterexample :
    anchorSimilarity seoGuideKeywords "seo tips" ≠ 1 / 4 ∧
    ¬ anchorSimilarity seoGuideKeywords "seo tips" > 1 / 5 ∧
    linkRelevanceScore "SEO Guide" ["SEO Guide for Beginners"] ["seo tips"] = 0 := by
  have h1 : anchorSimilarity seoGuideKeywords "seo tips" = mkRat 1 5 := by decide
  refine ⟨?_, ?_, by decide⟩
  · rw [h1, mkRat_eq_div']
    norm_num
  · rw [h1, mkRat_eq_div']
    norm_num

/-- C6 (amended): the page keyword set is {seo, guide, for, beginners}
(the tokenizer keeps "for"), the anchor "seo tips" gets Jaccard
similarity 1/5 = 0.2, which does not exceed the strict 0.2 threshold, so
the anchor is not counted relevant and the relevance score is 0. -/
theorem c6_link_relevance_example :
    seoGuideKeywords = ["seo", "guide", "for", "beginners"] ∧
    anchorSimilarity seoGuideKeywords "seo tips" = 1 / 5 ∧
    linkRelevanceScore "SEO Guide" ["SEO Guide for Beginners"] ["seo tips"] = 0 := by
  refine ⟨by decide, ?_, by decide⟩
  have h1 : anchorSimilarity seoGuideKeywords "seo tips" = mkRat 1 5 := by decide
  rw [h1, mkRat_eq_div']
  norm_num

/-- C7: raising `bodyCharCount` from 799 to 800 with every other field
unchanged raises the comprehensive score by exactly 10, and the only
check result that differs between the two score results is the
body-character-count check; the technical and planning category sums are
unchanged and the content sum grows by exactly the check's weight. -/
theorem c7_body_count_monotonicity (p : PageData) :
    (applyComprehensiveSeoScoring { p with bodyCharCount := 800 }).comprehensiveScore =
      some (comprehensiveScoreOf (computeChecks { p with bodyCharCount := 799 }) + 10) ∧
    (applyComprehensiveSeoScoring { p with bodyCharCount := 799 }).comprehensiveScore =
      some (comprehensiveScoreOf (computeChecks { p with bodyCharCount := 799 })) ∧
    computeChecks { p with bodyCharCount := 800 } =
      { computeChecks { p with bodyCharCount := 799 } with bodyWordsEnough := true } ∧
    (computeChecks { p with bodyCharCount := 799 }).bodyWordsEnough = false ∧
    technicalScore (computeChecks { p with bodyCharCount := 800 }) =
      technicalScore (computeChecks { p with bodyCharCount := 799 }) ∧
    planningScore (computeChecks { p with bodyCharCount := 800 }) =
      planningScore (computeChecks { p with bodyCharCount := 799 }) ∧
    contentScore (computeChecks { p with bodyCharCount := 800 }) =
      contentScore (computeChecks { p with bodyCharCount := 799 }) + 10 := by
  have hchecks : computeChecks { p with bodyCharCount := 800 } =
      { computeChecks { p with bodyCharCount := 799 } with bodyWordsEnough := true } := by
    cases p
    rfl
  have hfalse : (computeChecks { p with bodyCharCount := 799 }).bodyWordsEnough = false := by
    simp [computeChecks]
  have heta := checkResults_eta_body _ hfalse
  have hscore : comprehensiveScoreOf (computeChecks { p with bodyCharCount := 800 }) =
      comprehensiveScoreOf (computeChecks { p with bodyCharCount := 799 }) + 10 := by
    rw [hchecks, comprehensiveScore_flip_body, heta]
  refine ⟨?_, rfl, hchecks, hfalse, ?_, ?_, ?_⟩
  · show some (comprehensiveScoreOf (computeChecks { p with bodyCharCount := 800 })) = _
    rw [hscore]
  · rw [hchecks]
    cases computeChecks { p with bodyCharCount := 799 }
    rfl
  · rw [hchecks]
    cases computeChecks { p with bodyCharCount := 799 }
    rfl
  · rw [hchecks]
    conv_rhs => rw [← heta]
    cases computeChecks { p with bodyCharCount := 799 }
    simp only [contentScore, checkScore_true, checkScore_false]
    omega

/-- C9 (counterexample): the Category Scorer does not leave the page
record unchanged — applied to a freshly extracted record it returns a
record that differs from its input (the three score fields are written
into it), so `PageSignals` is not immutable under scoring. -/
theorem c9_scoring_mutates_record :
    applyComprehensiveSeoScoring freshPage ≠ freshPage := by
  decide

/-- C9 (amended): the scorer writes exactly the three score fields
(`comprehensive_score`, `category_scores`, `check_results`) into the page
record it returns; every extraction field passes through unchanged, so
re-scoring remains deterministic even though the record is extended
rather than left untouched. -/
theorem c9_scoring_preserves_extraction_fields (p : PageData) :
    (applyComprehensiveSeoScoring p).url = p.url ∧
    (applyComprehensiveSeoScoring p).title = p.title ∧
    (applyComprehensiveSeoScoring p).description = p.description ∧
    (applyComprehensiveSeoScoring p).metaKeywords = p.metaKeywords ∧
    (applyComprehensiveSeoScoring p).metaKeywordsList = p.metaKeywordsList ∧
    (applyComprehensiveSeoScoring p).headings = p.headings ∧
    (applyComprehensiveSeoScoring p).imagesTotal = p.imagesTotal ∧
    (applyComprehensiveSeoScoring p).imagesWithoutAlt = p.imagesWithoutAlt ∧
    (applyComprehensiveSeoScoring p).imagesTotalForAlt = p.imagesTotalForAlt ∧
    (applyComprehensiveSeoScoring p).bodyCharCount = p.bodyCharCount ∧
    (applyComprehensiveSeoScoring p).bodyWordCount = p.bodyWordCount ∧
    (applyComprehensiveSeoScoring p).hasOrderedList = p.hasOrderedList ∧
    (applyComprehensiveSeoScoring p).hasUnorderedList = p.hasUnorderedList ∧
    (applyComprehensiveSeoScoring p).hasTable = p.hasTable ∧
    (applyComprehensiveSeoScoring p).hasCode = p.hasCode ∧
    (applyComprehensiveSeoScoring p).faqLike = p.faqLike ∧
    (applyComprehensiveSeoScoring p).howtoLike = p.howtoLike ∧
    (applyComprehensiveSeoScoring p).tocLike = p.tocLike ∧
    (applyComprehensiveSeoScoring p).updatedMention = p.updatedMention ∧
    (applyComprehensiveSeoScoring p).internalLinksCount = p.internalLinksCount ∧
    (applyComprehensiveSeoScoring p).anchorDiversity = p.anchorDiversity ∧
    (applyComprehensiveSeoScoring p).linkRelevance = p.linkRelevance ∧
    (applyComprehensiveSeoScoring p).titleH1Similarity = p.titleH1Similarity ∧
    (applyComprehensiveSeoScoring p).robotsContent = p.robotsContent ∧
    (applyComprehensiveSeoScoring p).canonicalUrl = p.canonicalUrl ∧
    (applyComprehensiveSeoScoring p).comprehensiveScore =
      some (comprehensiveScoreOf (computeChecks p)) ∧
    (applyComprehensiveSeoScoring p).checkResults = some (computeChecks p) := by
  and_intros <;> rfl

/-- Each adjustment section's recorded entries sum to its bonus
contribution (the source updates both in lockstep). -/
theorem adjInternalLinks_sum (links : Nat) (rel : Rat) :
    (((adjInternalLinks links rel).1.map Prod.snd).sum) = (adjInternalLinks links rel).2 := by
  unfold adjInternalLinks
  split_ifs <;> simp

theorem adjContentVolume_sum (chars : Nat) :
    (((adjContentVolume chars).1.map Prod.snd).sum) = (adjContentVolume chars).2 := by
  unfold adjContentVolume
  split_ifs <;> simp

theorem adjUrlDepth_sum (url : String) :
    (((adjUrlDepth url).1.map Prod.snd).sum) = (adjUrlDepth url).2 := by
  unfold adjUrlDepth
  split_ifs <;> simp

theorem adjKeywordAlignment_sum (topKw : List String) (title h1joined : String) :
    (((adjKeywordAlignment topKw title h1joined).1.map Prod.snd).sum) =
      (adjKeywordAlignment topKw title h1joined).2 := by
  unfold adjKeywordAlignment
  dsimp only
  split_ifs <;> simp

theorem adjMetaKeywords_sum (metaList topKw : List String) :
    (((adjMetaKeywords metaList topKw).1.map Prod.snd).sum) =
      (adjMetaKeywords metaList topKw).2 := by
  unfold adjMetaKeywords
  dsimp only
  split_ifs <;> simp

/-- C2: for every page and every site summary, the contextual score
equals the clamp of the base score plus the sum of the recorded
adjustments, and in particular always lies in `[0, 100]` however the
adjustments stack. -/
theorem c2_contextual_score_clamped (page : PageData) (summary : SiteSummary) :
    (evaluatePageWithSiteContext page summary).contextualScore =
      max 0 (min 100 (((evaluatePageWithSiteContext page summary).baseScore : Int) +
        ((evaluatePageWithSiteContext page summary).adjustments.map Prod.snd).sum)) ∧
    0 ≤ (evaluatePageWithSiteContext page summary).contextualScore ∧
    (evaluatePageWithSiteContext page summary).contextualScore ≤ 100 := by
  refine ⟨?_, ?_, ?_⟩
  · simp only [evaluatePageWithSiteContext, List.map_append, List.sum_append,
      adjInternalLinks_sum, adjContentVolume_sum, adjUrlDepth_sum,
      adjKeywordAlignment_sum, adjMetaKeywords_sum]
  · simp only [evaluatePageWithSiteContext]
    omega
  · simp only [evaluatePageWithSiteContext]
    omega

/-- C3 (counterexample): on a document whose only candidate container is
an `<article>` holding fewer than 100 stripped characters, the detector
does **not** fall back to the nav-excluded whole-document extraction: it
returns the short article's text, which differs from the fallback's. -/
theorem c3_short_candidate_counterexample :
    candidateTagsOf (decomposeSoup shortArticleSoup) =
      [("article", Node.elem "article" noAttrs (nl [Node.text "Too short."]))] ∧
    extractCharCount (Node.elem "article" noAttrs (nl [Node.text "Too short."])) < 100 ∧
    mainContentTextOf shortArticleSoup = "Too short." ∧
    mainContentTextOf shortArticleSoup ≠ fallbackText (decomposeSoup shortArticleSoup) := by
  refine ⟨rfl, by decide, by decide, by decide⟩

/-- C3 (amended): main-content detection selects the first candidate
(article, then content-class container, then main) whose stripped
extracted text reaches 100 characters; when candidates exist but none
reaches 100 it uses the **first candidate**, and the nav-excluded
whole-document fallback applies only when no candidate container exists
at all. -/
theorem c3_main_content_selection (soup : Node) :
    mainContentTextOf soup =
      match (candidateTagsOf (decomposeSoup soup)).find?
          (fun p => decide (100 ≤ extractCharCount p.2)) with
      | some p => extractTextFromTag p.2
      | none =>
        match candidateTagsOf (decomposeSoup soup) with
        | p :: _ => extractTextFromTag p.2
        | [] => fallbackText (decomposeSoup soup) := by
  unfold mainContentTextOf
  dsimp only
  rw [← selectCandidate_eq_find]
  rcases h : selectCandidate (candidateTagsOf (decomposeSoup soup)) with _ | ⟨lbl, t⟩
  · rcases hc : candidateTagsOf (decomposeSoup soup) with _ | ⟨⟨l2, t2⟩, rest⟩ <;> rfl
  · rfl

/-- C8 (code bug): the robots-policy gate does **not** fail open on
every load failure.  `RobotFileParser.read()` catches HTTP errors
itself instead of raising, so `_setup_robots_parser`'s `except` never
fires and nothing is logged: a 401/403 robots.txt sets `disallow_all`,
and a status ≥ 500 leaves the file unread (`last_checked` unset), so in
both cases the gate returns a deny-all parser — every URL of the
session is robots-blocked, no fetch is ever issued and zero pages are
extracted, after which the analysis aborts with the empty-result
message.  Only a network-level exception reaches the handler and yields
the intended fail-open `None`, under which the same session fetches and
extracts pages normally. -/
theorem c8_robots_gate_fails_closed :
    (∃ st, setupRobotsParser (robotsRead (.httpError 403)) = some st ∧
      ∀ userAgent url, canFetch st userAgent url = false) ∧
    (∃ st, setupRobotsParser (robotsRead (.httpError 500)) = some st ∧
      ∀ userAgent url, canFetch st userAgent url = false) ∧
    crawlLoop { exampleCfg with
        robots := robotsHandle (robotsRead (.httpError 403)) } 10
      (initState exampleStart) = some ⟨[exampleStart], [], [], []⟩ ∧
    robotsHandle (robotsRead (.netError "connection refused")) = none ∧
    (∃ t, crawlLoop { exampleCfg with
        robots := robotsHandle (robotsRead (.netError "connection refused")) } 10
      (initState exampleStart) = some t ∧
      t.results.length = 5 ∧ t.log ≠ []) := by
  refine ⟨⟨_, rfl, fun userAgent url => rfl⟩,
    ⟨_, rfl, fun userAgent url => rfl⟩, ?_, rfl,
    ⟨_, rfl, by decide, by decide⟩⟩
  rfl

/-- C10: `_extract_internal_links` returns a deduplicated list of at most
20 URLs, so one crawled page contributes at most 20 frontier candidates
however many internal links its markup contains. -/
theorem c10_extracted_links_dedup_bounded (soup : Node) (currentUrl baseDomain : String) :
    (extractInternalLinks soup currentUrl baseDomain).Nodup ∧
    (extractInternalLinks soup currentUrl baseDomain).length ≤ 20 := by
  constructor
  · exact (List.take_sublist 20 _).nodup (List.nodup_dedup _)
  · exact List.length_take_le 20 _


/-! ## Crawler invariants (C4) -/

theorem crawlStep_next_spec (cfg : CrawlConfig) (s s' : CrawlState)
    (h : crawlStep cfg s = .next s') :
    ∃ url rest, s.frontier = url :: rest ∧ s.results.length < cfg.maxPages ∧
      ((url ∈ s.visited ∧ s' = { s with frontier := rest }) ∨
       (url ∉ s.visited ∧ robotsBlocked cfg url = true ∧
         s' = { s with frontier := rest, visited := url :: s.visited }) ∨
       (url ∉ s.visited ∧ robotsBlocked cfg url = false ∧
         (∃ soup, cfg.world url = .ok soup ∧
           s' = ⟨url :: s.visited,
                 if (s.results ++ [url]).length < cfg.maxPages then
                   addLinks (url :: s.visited) rest (extractInternalLinks soup url cfg.baseDomain)
                 else rest,
                 s.results ++ [url], s.log ++ [url]⟩)) ∨
       (url ∉ s.visited ∧ robotsBlocked cfg url = false ∧
         (∀ soup, cfg.world url ≠ .ok soup) ∧
         s' = { s with frontier := rest, visited := url :: s.visited,
                       log := s.log ++ [url] })) := by
  unfold crawlStep at h
  rcases hf : s.frontier with _ | ⟨url, rest⟩
  · rw [hf] at h
    exact absurd h (by simp)
  · rw [hf] at h
    dsimp only at h
    refine ⟨url, rest, rfl, ?_⟩
    by_cases h1 : cfg.maxPages ≤ s.results.length
    · rw [if_pos h1] at h
      exact absurd h (by simp)
    · rw [if_neg h1] at h
      refine ⟨by omega, ?_⟩
      by_cases h2 : url ∈ s.visited
      · rw [if_pos h2] at h
        simp only [StepResult.next.injEq] at h
        exact Or.inl ⟨h2, h.symm⟩
      · rw [if_neg h2] at h
        by_cases h3 : robotsBlocked cfg url
        · rw [if_pos h3] at h
          simp only [StepResult.next.injEq] at h
          exact Or.inr (Or.inl ⟨h2, h3, h.symm⟩)
        · rw [if_neg h3] at h
          rcases hw : cfg.world url with soup | _ | _ | _ <;> rw [hw] at h <;>
            simp only [StepResult.next.injEq] at h
          · exact Or.inr (Or.inr (Or.inl ⟨h2, by simp [h3], soup, rfl, h.symm⟩))
          · exact Or.inr (Or.inr (Or.inr ⟨h2, by simp [h3], by intro soup hcon; exact FetchOutcome.noConfusion hcon, h.symm⟩))
          · exact Or.inr (Or.inr (Or.inr ⟨h2, by simp [h3], by intro soup hcon; exact FetchOutcome.noConfusion hcon, h.symm⟩))
          · exact Or.inr (Or.inr (Or.inr ⟨h2, by simp [h3], by intro soup hcon; exact FetchOutcome.noConfusion hcon, h.symm⟩))



theorem crawlStep_done_spec (cfg : CrawlConfig) (s : CrawlState)
    (h : crawlStep cfg s = .done) :
    s.frontier = [] ∨ cfg.maxPages ≤ s.results.length := by
  unfold crawlStep at h
  rcases hf : s.frontier with _ | ⟨url, rest⟩
  · exact Or.inl rfl
  · rw [hf] at h
    dsimp only at h
    by_cases h1 : cfg.maxPages ≤ s.results.length
    · exact Or.inr h1
    · exfalso
      rw [if_neg h1] at h
      by_cases h2 : url ∈ s.visited
      · rw [if_pos h2] at h
        exact StepResult.noConfusion h
      · rw [if_neg h2] at h
        by_cases h3 : robotsBlocked cfg url
        · rw [if_pos h3] at h
          exact StepResult.noConfusion h
        · rw [if_neg h3] at h
          rcases hw : cfg.world url <;> rw [hw] at h <;> exact StepResult.noConfusion h

theorem mem_addLinks_of_mem (vis : List String) :
    ∀ (ls fr : List String) (x : String), x ∈ fr → x ∈ addLinks vis fr ls := by
  intro ls
  induction ls with
  | nil => intro fr x hx; exact hx
  | cons l ls ih =>
    intro fr x hx
    unfold addLinks
    split_ifs with h
    · exact ih fr x hx
    · exact ih (fr ++ [l]) x (List.mem_append_left _ hx)

theorem addLinks_covers (vis : List String) :
    ∀ (ls fr : List String) (x : String), x ∈ ls →
      x ∈ vis ∨ x ∈ addLinks vis fr ls := by
  intro ls
  induction ls with
  | nil => intro fr x hx; exact absurd hx (List.not_mem_nil x)
  | cons l ls ih =>
    intro fr x hx
    unfold addLinks
    rcases List.mem_cons.mp hx with rfl | hx'
    · split_ifs with h
      · rcases h with hv | hf
        · exact Or.inl hv
        · exact Or.inr (mem_addLinks_of_mem vis ls fr x hf)
      · exact Or.inr (mem_addLinks_of_mem vis ls (fr ++ [x]) x
          (List.mem_append_right _ (List.mem_singleton.mpr rfl)))
    · split_ifs with h
      · exact ih fr x hx'
      · exact ih (fr ++ [l]) x hx'

theorem addLinks_subset (vis : List String) :
    ∀ (ls fr : List String) (x : String), x ∈ addLinks vis fr ls →
      x ∈ fr ∨ x ∈ ls := by
  intro ls
  induction ls with
  | nil => intro fr x hx; exact Or.inl hx
  | cons l ls ih =>
    intro fr x hx
    unfold addLinks at hx
    split_ifs at hx with h
    · rcases ih fr x hx with hf | hl
      · exact Or.inl hf
      · exact Or.inr (List.mem_cons_of_mem _ hl)
    · rcases ih (fr ++ [l]) x hx with hf | hl
      · rcases List.mem_append.mp hf with hf' | hl'
        · exact Or.inl hf'
        · exact Or.inr (List.mem_cons.mpr (Or.inl (List.mem_singleton.mp hl')))
      · exact Or.inr (List.mem_cons_of_mem _ hl)

theorem crawlLoop_mono (cfg : CrawlConfig) :
    ∀ (fuel : Nat) (s t : CrawlState), crawlLoop cfg fuel s = some t →
      s.visited ⊆ t.visited ∧ s.results.length ≤ t.results.length := by
  intro fuel
  induction fuel with
  | zero => intro s t h; exact absurd h (by simp [crawlLoop])
  | succ n ih =>
    intro s t h
    simp only [crawlLoop] at h
    rcases hstep : crawlStep cfg s with _ | s' <;> rw [hstep] at h
    · obtain rfl : s = t := by simpa using h
      exact ⟨fun x hx => hx, le_refl _⟩
    · obtain ⟨hv, hr⟩ := ih s' t h
      obtain ⟨url, rest, hf, hlen, hcases⟩ := crawlStep_next_spec cfg s s' hstep
      rcases hcases with ⟨_, rfl⟩ | ⟨_, _, rfl⟩ | ⟨_, _, soup, hw, rfl⟩ | ⟨_, _, _, rfl⟩
      · exact ⟨hv, hr⟩
      · exact ⟨fun x hx => hv (List.mem_cons_of_mem _ hx), hr⟩
      · refine ⟨fun x hx => hv (List.mem_cons_of_mem _ hx), ?_⟩
        simp only [List.length_append, List.length_singleton] at hr
        omega
      · exact ⟨fun x hx => hv (List.mem_cons_of_mem _ hx), hr⟩

theorem crawlLoop_budget (cfg : CrawlConfig) :
    ∀ (fuel : Nat) (s t : CrawlState), crawlLoop cfg fuel s = some t →
      s.results.length ≤ cfg.maxPages → t.results.length ≤ cfg.maxPages := by
  intro fuel
  induction fuel with
  | zero => intro s t h; exact absurd h (by simp [crawlLoop])
  | succ n ih =>
    intro s t h hbound
    simp only [crawlLoop] at h
    rcases hstep : crawlStep cfg s with _ | s' <;> rw [hstep] at h
    · obtain rfl : s = t := by simpa using h
      exact hbound
    · refine ih s' t h ?_
      obtain ⟨url, rest, hf, hlen, hcases⟩ := crawlStep_next_spec cfg s s' hstep
      rcases hcases with ⟨_, rfl⟩ | ⟨_, _, rfl⟩ | ⟨_, _, soup, hw, rfl⟩ | ⟨_, _, _, rfl⟩
      · exact hbound
      · exact hbound
      · simp only [List.length_append, List.length_singleton]
        omega
      · exact hbound

theorem crawlLoop_log (cfg : CrawlConfig) :
    ∀ (fuel : Nat) (s t : CrawlState), crawlLoop cfg fuel s = some t →
      s.log.Nodup → (∀ u ∈ s.log, u ∈ s.visited) →
      t.log.Nodup ∧ ∀ u ∈ t.log, u ∈ t.visited := by
  intro fuel
  induction fuel with
  | zero => intro s t h; exact absurd h (by simp [crawlLoop])
  | succ n ih =>
    intro s t h hnd hsub
    simp only [crawlLoop] at h
    rcases hstep : crawlStep cfg s with _ | s' <;> rw [hstep] at h
    · obtain rfl : s = t := by simpa using h
      exact ⟨hnd, hsub⟩
    · refine ih s' t h ?_ ?_
      all_goals
        obtain ⟨url, rest, hf, hlen, hcases⟩ := crawlStep_next_spec cfg s s' hstep
      · rcases hcases with ⟨_, rfl⟩ | ⟨_, _, rfl⟩ | ⟨hnv, _, soup, hw, rfl⟩ | ⟨hnv, _, _, rfl⟩
        · exact hnd
        · exact hnd
        · refine List.Nodup.append hnd (List.nodup_singleton url) ?_
          intro x hx hx'
          obtain rfl : x = url := List.mem_singleton.mp hx'
          exact hnv (hsub x hx)
        · refine List.Nodup.append hnd (List.nodup_singleton url) ?_
          intro x hx hx'
          obtain rfl : x = url := List.mem_singleton.mp hx'
          exact hnv (hsub x hx)
      · rcases hcases with ⟨_, rfl⟩ | ⟨_, _, rfl⟩ | ⟨hnv, _, soup, hw, rfl⟩ | ⟨hnv, _, _, rfl⟩
        · exact hsub
        · exact fun u hu => List.mem_cons_of_mem _ (hsub u hu)
        · intro u hu
          rcases List.mem_append.mp hu with hu' | hu'
          · exact List.mem_cons_of_mem _ (hsub u hu')
          · obtain rfl : u = url := List.mem_singleton.mp hu'
            exact List.mem_cons_self _ _
        · intro u hu
          rcases List.mem_append.mp hu with hu' | hu'
          · exact List.mem_cons_of_mem _ (hsub u hu')
          · obtain rfl : u = url := List.mem_singleton.mp hu'
            exact List.mem_cons_self _ _



theorem crawlLoop_final (cfg : CrawlConfig) :
    ∀ (fuel : Nat) (s t : CrawlState), crawlLoop cfg fuel s = some t →
      t.frontier = [] ∨ cfg.maxPages ≤ t.results.length := by
  intro fuel
  induction fuel with
  | zero => intro s t h; exact absurd h (by simp [crawlLoop])
  | succ n ih =>
    intro s t h
    simp only [crawlLoop] at h
    rcases hstep : crawlStep cfg s with _ | s' <;> rw [hstep] at h
    · obtain rfl : s = t := by simpa using h
      exact crawlStep_done_spec cfg s hstep
    · exact ih s' t h

theorem crawlLoop_absorb (cfg : CrawlConfig) :
    ∀ (fuel : Nat) (s t : CrawlState), crawlLoop cfg fuel s = some t →
      ∀ u ∈ s.frontier, u ∈ t.visited ∨ u ∈ t.frontier := by
  intro fuel
  induction fuel with
  | zero => intro s t h; exact absurd h (by simp [crawlLoop])
  | succ n ih =>
    intro s t h u hu
    simp only [crawlLoop] at h
    rcases hstep : crawlStep cfg s with _ | s' <;> rw [hstep] at h
    · obtain rfl : s = t := by simpa using h
      exact Or.inr hu
    · obtain ⟨url, rest, hf, hlen, hcases⟩ := crawlStep_next_spec cfg s s' hstep
      rw [hf] at hu
      have hmono := (crawlLoop_mono cfg n s' t h).1
      rcases hcases with ⟨hv, rfl⟩ | ⟨hnv, _, rfl⟩ | ⟨hnv, _, soup, hw, rfl⟩ | ⟨hnv, _, _, rfl⟩
      · rcases List.mem_cons.mp hu with rfl | hu'
        · exact Or.inl (hmono hv)
        · exact ih _ t h u hu'
      · rcases List.mem_cons.mp hu with rfl | hu'
        · exact Or.inl (hmono (List.mem_cons_self _ _))
        · exact ih _ t h u hu'
      · rcases List.mem_cons.mp hu with rfl | hu'
        · exact Or.inl (hmono (List.mem_cons_self _ _))
        · refine ih _ t h u ?_
          dsimp only
          split_ifs with hg
          · exact mem_addLinks_of_mem _ _ rest u hu'
          · exact hu'
      · rcases List.mem_cons.mp hu with rfl | hu'
        · exact Or.inl (hmono (List.mem_cons_self _ _))
        · exact ih _ t h u hu'

theorem crawlLoop_complete (cfg : CrawlConfig) (start : String)
    (hrob : cfg.robots = none)
    (hfetch : ∀ u, Reach cfg start u → ∃ soup, cfg.world u = .ok soup) :
    ∀ (fuel : Nat) (s t : CrawlState),
      crawlLoop cfg fuel s = some t →
      t.results.length < cfg.maxPages →
      s.visited.Nodup →
      s.results.length = s.visited.length →
      (∀ u ∈ s.visited, Reach cfg start u) →
      (∀ u ∈ s.frontier, Reach cfg start u) →
      (∀ u ∈ s.visited, ∀ soup, cfg.world u = .ok soup →
        ∀ w ∈ extractInternalLinks soup u cfg.baseDomain, w ∈ s.visited ∨ w ∈ s.frontier) →
      t.visited.Nodup ∧ t.results.length = t.visited.length ∧
      (∀ u ∈ t.visited, ∀ soup, cfg.world u = .ok soup →
        ∀ w ∈ extractInternalLinks soup u cfg.baseDomain, w ∈ t.visited) ∧
      t.frontier = [] := by
  intro fuel
  induction fuel with
  | zero => intro s t h; exact absurd h (by simp [crawlLoop])
  | succ n ih =>
    intro s t h hlt hnd hlen hvR hfR hD
    simp only [crawlLoop] at h
    rcases hstep : crawlStep cfg s with _ | s' <;> rw [hstep] at h
    · obtain rfl : s = t := by simpa using h
      have hfe : s.frontier = [] := by
        rcases crawlStep_done_spec cfg s hstep with hfe | hge
        · exact hfe
        · omega
      refine ⟨hnd, hlen, ?_, hfe⟩
      intro u hu soup hw w hmem
      rcases hD u hu soup hw w hmem with hw' | hw'
      · exact hw'
      · rw [hfe] at hw'
        exact absurd hw' (List.not_mem_nil w)
    · obtain ⟨url, rest, hf, hblen, hcases⟩ := crawlStep_next_spec cfg s s' hstep
      rcases hcases with ⟨hv, rfl⟩ | ⟨hnv, hb, rfl⟩ | ⟨hnv, hb, soup, hw, rfl⟩ | ⟨hnv, hb, hno, rfl⟩
      · -- already-visited pop
        refine ih _ t h hlt hnd hlen hvR ?_ ?_
        · intro u hu
          exact hfR u (by rw [hf]; exact List.mem_cons_of_mem _ hu)
        · intro u hu soup hws w hmem
          rcases hD u hu soup hws w hmem with hw' | hw'
          · exact Or.inl hw'
          · rw [hf] at hw'
            rcases List.mem_cons.mp hw' with rfl | hw''
            · exact Or.inl hv
            · exact Or.inr hw''
      · -- robots-blocked: impossible with no parser
        rw [robotsBlocked, hrob] at hb
        exact absurd hb (by simp)
      · -- successful fetch
        have hReachUrl : Reach cfg start url :=
          hfR url (by rw [hf]; exact List.mem_cons_self _ _)
        have hguard : (s.results ++ [url]).length < cfg.maxPages := by
          have hm : (s.results ++ [url]).length ≤ t.results.length :=
            (crawlLoop_mono cfg n _ t h).2
          omega
        rw [if_pos hguard] at h
        refine ih _ t h hlt ?_ ?_ ?_ ?_ ?_
        · exact List.nodup_cons.mpr ⟨hnv, hnd⟩
        · show (s.results ++ [url]).length = (url :: s.visited).length
          simp only [List.length_append, List.length_cons, List.length_nil]
          omega
        · intro u hu
          rcases List.mem_cons.mp hu with rfl | hu'
          · exact hReachUrl
          · exact hvR u hu'
        · intro u hu
          rcases addLinks_subset _ _ _ u hu with hu' | hu'
          · exact hfR u (by rw [hf]; exact List.mem_cons_of_mem _ hu')
          · exact Reach.step hReachUrl hw hu'
        · intro u hu soup2 hws w hmem
          rcases List.mem_cons.mp hu with rfl | hu'
          · have hsoup : soup2 = soup := by
              rw [hw] at hws
              injection hws.symm
            subst hsoup
            exact addLinks_covers _ _ rest w hmem
          · rcases hD u hu' soup2 hws w hmem with hw' | hw'
            · exact Or.inl (List.mem_cons_of_mem _ hw')
            · rw [hf] at hw'
              rcases List.mem_cons.mp hw' with rfl | hw''
              · exact Or.inl (List.mem_cons_self _ _)
              · exact Or.inr (mem_addLinks_of_mem _ _ rest w hw'')
      · -- fetch failure: impossible, every reachable URL fetches
        have hReachUrl : Reach cfg start url :=
          hfR url (by rw [hf]; exact List.mem_cons_self _ _)
        obtain ⟨soup, hsoup⟩ := hfetch url hReachUrl
        exact absurd hsoup (hno soup)



/-- C4: in one finished crawl session the crawler never issues two
fetches for the same URL (the fetch log is duplicate-free), the number of
successfully extracted pages is at most `maxPages`, and in the budget
scenario — `maxPages = 5`, no robots policy, every reachable URL
fetchable as HTML, at least 5 same-domain URLs reachable — it returns
exactly 5 page records. -/
theorem c4_crawl_budget (fuel : Nat) (cfg : CrawlConfig) (start : String)
    (t : CrawlState) (hrun : crawlPages fuel cfg start = some t) :
    t.log.Nodup ∧ t.results.length ≤ cfg.maxPages ∧
    (cfg.maxPages = 5 → cfg.robots = none →
      (∀ u, Reach cfg start u → ∃ soup, cfg.world u = .ok soup) →
      (∃ S : List String, S.Nodup ∧ 5 ≤ S.length ∧ ∀ u ∈ S, Reach cfg start u) →
      t.results.length = 5) := by
  unfold crawlPages at hrun
  refine ⟨(crawlLoop_log cfg fuel _ t hrun List.nodup_nil (by simp [initState])).1,
    crawlLoop_budget cfg fuel _ t hrun (by simp [initState]), ?_⟩
  rintro h5 hrob hfetch ⟨S, hSnd, hSlen, hSR⟩
  have hbudget := crawlLoop_budget cfg fuel _ t hrun (by simp [initState])
  rcases Nat.lt_or_ge t.results.length cfg.maxPages with hlt | hge
  · exfalso
    obtain ⟨hnd, hlen, hD, hfe⟩ :=
      crawlLoop_complete cfg start hrob hfetch fuel (initState start) t hrun hlt
        List.nodup_nil rfl (by simp [initState])
        (by
          intro u hu
          obtain rfl : u = start := List.mem_singleton.mp hu
          exact Reach.base)
        (by simp [initState])
    have hstart : start ∈ t.visited := by
      rcases crawlLoop_absorb cfg fuel _ t hrun start (List.mem_singleton.mpr rfl) with h | h
      · exact h
      · rw [hfe] at h
        exact absurd h (List.not_mem_nil start)
    have hclosed : ∀ v, Reach cfg start v → v ∈ t.visited := by
      intro v hv
      induction hv with
      | base => exact hstart
      | step hu hw hmem ihv => exact hD _ ihv _ hw _ hmem
    have hsub : S ⊆ t.visited := fun u hu => hclosed u (hSR u hu)
    have hcard : S.length ≤ t.visited.length :=
      (List.subperm_of_subset hSnd hsub).length_le
    omega
  · omega



/-- C4 (witness): the example crawl session — 6 fetchable pages, budget
5 — finishes, fetches no URL twice, and returns exactly 5 page records. -/
theorem c4_crawl_budget_witness :
    ∃ t, crawlPages 10 exampleCfg exampleStart = some t ∧
      t.log.Nodup ∧ t.results.length ≤ exampleCfg.maxPages ∧ t.results.length = 5 := by
  have hstepR : ∀ v, v ∈ extractInternalLinks homeSoup exampleStart exampleCfg.baseDomain →
      Reach exampleCfg exampleStart v := fun v hv => Reach.step Reach.base rfl hv
  have hreach : ∀ u ∈ ["https://crawl.example/", "https://crawl.example/a",
      "https://crawl.example/b", "https://crawl.example/c", "https://crawl.example/d"],
      Reach exampleCfg exampleStart u := by
    intro u hu
    fin_cases hu
    · exact Reach.base
    · exact hstepR _ (by decide)
    · exact hstepR _ (by decide)
    · exact hstepR _ (by decide)
    · exact hstepR _ (by decide)
  obtain ⟨hnodup, hle, hexact⟩ := c4_crawl_budget 10 exampleCfg exampleStart _ rfl
  exact ⟨_, rfl, hnodup, hle, hexact rfl rfl
    (fun u _ => by
      by_cases h : u = "https://crawl.example/"
      · exact ⟨homeSoup, by simp [exampleCfg, h]⟩
      · exact ⟨leafSoup, by simp [exampleCfg, h]⟩)
    ⟨_, by decide, by decide, hreach⟩⟩


/-! ## URL-netloc lemmas and domain containment (C5) -/

theorem startsWith_three {l : List Char} {a b c : Char}
    (h : startsWith l [a, b, c] = true) : ∃ r, l = a :: b :: c :: r := by
  rcases l with _ | ⟨x, _ | ⟨y, _ | ⟨z, r⟩⟩⟩ <;> simp [startsWith] at h
  obtain ⟨rfl, rfl, rfl⟩ := h
  exact ⟨r, rfl⟩

theorem splitSchemeAux_decomp :
    ∀ {l s r : List Char}, splitSchemeAux l = some (s, r) →
      l = s ++ ':' :: '/' :: '/' :: r := by
  intro l
  induction l with
  | nil => intro s r h; exact absurd h (by simp [splitSchemeAux])
  | cons c cs ih =>
    intro s r h
    unfold splitSchemeAux at h
    split_ifs at h with hsw
    · obtain ⟨t, ht⟩ := startsWith_three hsw
      obtain ⟨rfl, rfl⟩ : c = ':' ∧ cs = '/' :: '/' :: t := by
        injection ht with h1 h2
        exact ⟨h1, h2⟩
      simp only [Option.some.injEq, Prod.mk.injEq] at h
      obtain ⟨rfl, rfl⟩ := h
      simp
    · cases hsp : splitSchemeAux cs with
      | none => rw [hsp] at h; exact absurd h (by simp)
      | some pr =>
        obtain ⟨s', r'⟩ := pr
        rw [hsp] at h
        simp only [Option.some.injEq, Prod.mk.injEq] at h
        obtain ⟨rfl, rfl⟩ := h
        rw [ih hsp]
        rfl

theorem splitSchemeAux_scheme_none :
    ∀ {l s r : List Char}, splitSchemeAux l = some (s, r) →
      splitSchemeAux s = none := by
  intro l
  induction l with
  | nil => intro s r h; exact absurd h (by simp [splitSchemeAux])
  | cons c cs ih =>
    intro s r h
    unfold splitSchemeAux at h
    split_ifs at h with hsw
    · simp only [Option.some.injEq, Prod.mk.injEq] at h
      obtain ⟨rfl, rfl⟩ := h
      rfl
    · cases hsp : splitSchemeAux cs with
      | none => rw [hsp] at h; exact absurd h (by simp)
      | some pr =>
        obtain ⟨s', r'⟩ := pr
        rw [hsp] at h
        simp only [Option.some.injEq, Prod.mk.injEq] at h
        obtain ⟨rfl, rfl⟩ := h
        unfold splitSchemeAux
        split_ifs with hsw2
        · exfalso
          obtain ⟨t, ht⟩ := startsWith_three hsw2
          obtain ⟨rfl, rfl⟩ : c = ':' ∧ s' = '/' :: '/' :: t := by
            injection ht with h1 h2
            exact ⟨h1, h2⟩
          have hcs : cs = '/' :: '/' :: (t ++ ':' :: '/' :: '/' :: r') := by
            have := splitSchemeAux_decomp hsp
            simpa using this
          apply hsw
          rw [hcs]
          simp [startsWith]
        · rw [ih hsp]

theorem splitSchemeAux_append {s : List Char} (h : splitSchemeAux s = none)
    (r : List Char) :
    splitSchemeAux (s ++ ':' :: '/' :: '/' :: r) = some (s, r) := by
  induction s with
  | nil => simp [splitSchemeAux, startsWith]
  | cons c cs ih =>
    have hcs : splitSchemeAux cs = none := by
      unfold splitSchemeAux at h
      split_ifs at h with hsw
      cases hsp : splitSchemeAux cs with
      | none => rfl
      | some pr => rw [hsp] at h; exact absurd h (by simp)
    have hnsw : startsWith (c :: cs) [':', '/', '/'] = false := by
      unfold splitSchemeAux at h
      split_ifs at h with hsw
      simp [hsw]
    simp only [List.cons_append]
    unfold splitSchemeAux
    split_ifs with hsw2
    · exfalso
      obtain ⟨t, ht⟩ := startsWith_three hsw2
      obtain ⟨rfl, hcs2⟩ : c = ':' ∧ cs ++ ':' :: '/' :: '/' :: r = '/' :: '/' :: t := by
        injection ht with h1 h2
        exact ⟨h1, h2⟩
      rcases cs with _ | ⟨x, _ | ⟨y, cs3⟩⟩
      · simp at hcs2
      · simp at hcs2
      · simp at hcs2
        obtain ⟨rfl, rfl, _⟩ := hcs2
        rw [show startsWith (':' :: '/' :: '/' :: cs3) [':', '/', '/'] = true by
          simp [startsWith]] at hnsw
        exact absurd hnsw (by simp)
    · rw [ih hcs]



theorem mem_takeWhile_sat {p : Char → Bool} :
    ∀ {l : List Char} {x : Char}, x ∈ l.takeWhile p → p x = true := by
  intro l
  induction l with
  | nil => intro x hx; simp [List.takeWhile] at hx
  | cons a as ih =>
    intro x hx
    rw [List.takeWhile_cons] at hx
    by_cases ha : p a
    · rw [if_pos ha] at hx
      rcases List.mem_cons.mp hx with rfl | hx'
      · exact ha
      · exact ih hx'
    · rw [if_neg ha] at hx
      exact absurd hx (List.not_mem_nil x)

theorem dropWhile_head_fails {p : Char → Bool} :
    ∀ {l : List Char} {c : Char} {t : List Char},
      l.dropWhile p = c :: t → p c = false := by
  intro l
  induction l with
  | nil => intro c t h; simp [List.dropWhile] at h
  | cons a as ih =>
    intro c t h
    rw [List.dropWhile_cons] at h
    by_cases ha : p a
    · rw [if_pos ha] at h
      exact ih h
    · rw [if_neg ha] at h
      injection h with h1 _
      rw [← h1]
      simp [ha]

theorem takeWhile_append_sat {p : Char → Bool} :
    ∀ (a b : List Char), (∀ x ∈ a, p x = true) →
      (a ++ b).takeWhile p = a ++ b.takeWhile p := by
  intro a
  induction a with
  | nil => intro b _; rfl
  | cons x xs ih =>
    intro b ha
    simp only [List.cons_append, List.takeWhile_cons,
      ha x (List.mem_cons_self x xs), if_pos]
    rw [ih b (fun y hy => ha y (List.mem_cons_of_mem x hy))]

theorem takeWhile_stop_head {p : Char → Bool} (b : List Char)
    (hb : b = [] ∨ ∃ c t, b = c :: t ∧ p c = false) :
    b.takeWhile p = [] := by
  rcases hb with rfl | ⟨c, t, rfl, hc⟩
  · rfl
  · simp [List.takeWhile_cons, hc]

/-- The tail the rebuilt URL appends after the netloc (path plus optional
`?query`) is empty or begins with a netloc-stop character, provided the
path/query were split off at a netloc-stop character. -/
theorem rebuild_tail_shape (after : List Char)
    (h : after = [] ∨ ∃ c t, after = c :: t ∧ isNetlocStop c = true) :
    (pathPart after ++
        (if queryPart after = [] then [] else '?' :: queryPart after)) = [] ∨
      ∃ c t, (pathPart after ++
        (if queryPart after = [] then [] else '?' :: queryPart after)) = c :: t ∧
        isNetlocStop c = true := by
  rcases h with rfl | ⟨c, t, rfl, hc⟩
  · left
    simp [pathPart, queryPart, List.takeWhile, List.dropWhile]
  · have hc3 : c = '/' ∨ c = '?' ∨ c = '#' := by
      simp [isNetlocStop] at hc
      tauto
    rcases hc3 with rfl | rfl | rfl
    · right
      have hpath : pathPart ('/' :: t) =
          '/' :: t.takeWhile (fun c => !isPathStop c) := by
        simp [pathPart, List.takeWhile_cons, isPathStop]
      refine ⟨'/', t.takeWhile (fun c => !isPathStop c) ++
        (if queryPart ('/' :: t) = [] then [] else '?' :: queryPart ('/' :: t)),
        ?_, by decide⟩
      rw [hpath]
      simp
    · have hpath : pathPart ('?' :: t) = [] := by
        simp [pathPart, List.takeWhile_cons, isPathStop]
      rw [hpath]
      by_cases ht : queryPart ('?' :: t) = []
      · left
        rw [List.nil_append, if_pos ht]
      · right
        exact ⟨'?', queryPart ('?' :: t),
          by rw [List.nil_append, if_neg ht], by decide⟩
    · left
      have hpath : pathPart ('#' :: t) = [] := by
        simp [pathPart, List.takeWhile_cons, isPathStop]
      have hq : queryPart ('#' :: t) = [] := by
        simp [queryPart, List.dropWhile_cons, isPathStop]
      rw [hpath, hq]
      rfl

/-- Re-parsing the URL rebuilt from parsed components recovers the same
netloc (when the netloc is non-empty). -/
theorem parse_rebuild_netloc {l : List Char}
    (h : (parseUrlL l).netloc ≠ []) :
    (parseUrlL (rebuildUrlL (parseUrlL l))).netloc = (parseUrlL l).netloc := by
  cases hsp : splitSchemeAux l with
  | none => exact absurd (by simp [parseUrlL, hsp]) h
  | some pr =>
    obtain ⟨sch, rest⟩ := pr
    have hparse : parseUrlL l =
        ⟨sch, rest.takeWhile (fun c => !isNetlocStop c),
         pathPart (rest.dropWhile (fun c => !isNetlocStop c)),
         queryPart (rest.dropWhile (fun c => !isNetlocStop c))⟩ := by
      simp [parseUrlL, hsp]
    have hschnone : splitSchemeAux sch = none := splitSchemeAux_scheme_none hsp
    rw [hparse]
    have hsplit2 : splitSchemeAux (rebuildUrlL
        ⟨sch, rest.takeWhile (fun c => !isNetlocStop c),
         pathPart (rest.dropWhile (fun c => !isNetlocStop c)),
         queryPart (rest.dropWhile (fun c => !isNetlocStop c))⟩) =
        some (sch,
          rest.takeWhile (fun c => !isNetlocStop c) ++
            pathPart (rest.dropWhile (fun c => !isNetlocStop c)) ++
            (if queryPart (rest.dropWhile (fun c => !isNetlocStop c)) = [] then []
             else '?' :: queryPart (rest.dropWhile (fun c => !isNetlocStop c)))) := by
      exact splitSchemeAux_append hschnone _
    simp only [parseUrlL, hsplit2]
    have hafter : rest.dropWhile (fun c => !isNetlocStop c) = [] ∨
        ∃ c t, rest.dropWhile (fun c => !isNetlocStop c) = c :: t ∧
          isNetlocStop c = true := by
      cases hd : rest.dropWhile (fun c => !isNetlocStop c) with
      | nil => exact Or.inl rfl
      | cons c t =>
        refine Or.inr ⟨c, t, rfl, ?_⟩
        have := dropWhile_head_fails hd
        simpa using this
    have hshape' :
        (pathPart (rest.dropWhile (fun c => !isNetlocStop c)) ++
          (if queryPart (rest.dropWhile (fun c => !isNetlocStop c)) = [] then []
           else '?' :: queryPart (rest.dropWhile (fun c => !isNetlocStop c)))) = [] ∨
        ∃ c t, (pathPart (rest.dropWhile (fun c => !isNetlocStop c)) ++
          (if queryPart (rest.dropWhile (fun c => !isNetlocStop c)) = [] then []
           else '?' :: queryPart (rest.dropWhile (fun c => !isNetlocStop c)))) = c :: t ∧
          (fun c => !isNetlocStop c) c = false := by
      rcases rebuild_tail_shape _ hafter with h1 | ⟨c, t, h1, h2⟩
      · exact Or.inl h1
      · exact Or.inr ⟨c, t, h1, by simp [h2]⟩
    rw [List.append_assoc]
    rw [takeWhile_append_sat _ _ (fun x hx => mem_takeWhile_sat hx)]
    rw [takeWhile_stop_head _ hshape']
    simp



/-- Every URL `_extract_internal_links` returns parses to the base
domain's netloc (the filter compares netlocs before the URL is rebuilt). -/
theorem extractInternalLinks_netloc (soup : Node) (current baseDomain : String)
    (hbase : urlNetloc baseDomain ≠ []) :
    ∀ u ∈ extractInternalLinks soup current baseDomain,
      urlNetloc u = urlNetloc baseDomain := by
  intro u hu
  unfold extractInternalLinks at hu
  have hu' := List.mem_dedup.mp (List.mem_of_mem_take hu)
  obtain ⟨href, hmem, hf⟩ := List.mem_filterMap.mp hu'
  dsimp only at hf
  split_ifs at hf with hcond
  · simp only [Option.some.injEq] at hf
    subst hf
    have hne : (parseUrlL (urljoin current href).toList).netloc ≠ [] := by
      rw [hcond]
      exact hbase
    have := parse_rebuild_netloc hne
    unfold urlNetloc
    rw [show (String.mk (rebuildUrlL (parseUrlL (urljoin current href).toList))).toList =
      rebuildUrlL (parseUrlL (urljoin current href).toList) from rfl]
    rw [this, hcond]

/-- Domain containment along a finished crawl: when the start URL is on
the base domain, every fetched URL (and every queued URL) parses to the
base domain's netloc. -/
theorem crawlLoop_domain (cfg : CrawlConfig)
    (hbase : urlNetloc cfg.baseDomain ≠ []) :
    ∀ (fuel : Nat) (s t : CrawlState), crawlLoop cfg fuel s = some t →
      (∀ u ∈ s.frontier, urlNetloc u = urlNetloc cfg.baseDomain) →
      (∀ u ∈ s.log, urlNetloc u = urlNetloc cfg.baseDomain) →
      ∀ u ∈ t.log, urlNetloc u = urlNetloc cfg.baseDomain := by
  intro fuel
  induction fuel with
  | zero => intro s t h; exact absurd h (by simp [crawlLoop])
  | succ n ih =>
    intro s t h hfr hlog
    simp only [crawlLoop] at h
    rcases hstep : crawlStep cfg s with _ | s' <;> rw [hstep] at h
    · obtain rfl : s = t := by simpa using h
      exact hlog
    · obtain ⟨url, rest, hf, hlen, hcases⟩ := crawlStep_next_spec cfg s s' hstep
      have hurl : urlNetloc url = urlNetloc cfg.baseDomain :=
        hfr url (by rw [hf]; exact List.mem_cons_self _ _)
      have hrest : ∀ u ∈ rest, urlNetloc u = urlNetloc cfg.baseDomain :=
        fun u hu => hfr u (by rw [hf]; exact List.mem_cons_of_mem _ hu)
      rcases hcases with ⟨hv, rfl⟩ | ⟨hnv, _, rfl⟩ | ⟨hnv, _, soup, hw, rfl⟩ | ⟨hnv, _, _, rfl⟩
      · exact ih _ t h hrest hlog
      · exact ih _ t h hrest hlog
      · refine ih _ t h ?_ ?_
        · dsimp only
          split_ifs with hg
          · intro u hu
            rcases addLinks_subset _ _ _ u hu with hu' | hu'
            · exact hrest u hu'
            · exact extractInternalLinks_netloc soup url cfg.baseDomain hbase u hu'
          · exact hrest
        · intro u hu
          rcases List.mem_append.mp hu with hu' | hu'
          · exact hlog u hu'
          · obtain rfl : u = url := List.mem_singleton.mp hu'
            exact hurl
      · refine ih _ t h hrest ?_
        intro u hu
        rcases List.mem_append.mp hu with hu' | hu'
        · exact hlog u hu'
        · obtain rfl : u = url := List.mem_singleton.mp hu'
          exact hurl

/-- C5: the crawler never issues a fetch outside the origin domain.
Every URL `_extract_internal_links` hands to the frontier parses to the
base domain's netloc, and consequently, when the start URL is on the base
domain, every URL in the fetch log of a finished crawl has the base
domain's netloc — a crawl started at one host never requests another. -/
theorem c5_domain_containment (fuel : Nat) (cfg : CrawlConfig) (start : String)
    (t : CrawlState)
    (hbase : urlNetloc cfg.baseDomain ≠ [])
    (hstart : urlNetloc start = urlNetloc cfg.baseDomain)
    (hrun : crawlPages fuel cfg start = some t) :
    (∀ (soup : Node) (pageUrl : String),
      ∀ u ∈ extractInternalLinks soup pageUrl cfg.baseDomain,
        urlNetloc u = urlNetloc cfg.baseDomain) ∧
    ∀ u ∈ t.log, urlNetloc u = urlNetloc cfg.baseDomain := by
  refine ⟨fun soup pageUrl => extractInternalLinks_netloc soup pageUrl cfg.baseDomain hbase, ?_⟩
  refine crawlLoop_domain cfg hbase fuel (initState start) t hrun ?_ ?_
  · intro u hu
    obtain rfl : u = start := List.mem_singleton.mp hu
    exact hstart
  · intro u hu
    exact absurd hu (List.not_mem_nil u)

/-- C5 (witness): on the example crawl session every fetched URL parses
to the base domain's netloc. -/
theorem c5_domain_containment_witness :
    ∃ t, crawlPages 10 exampleCfg exampleStart = some t ∧
      ∀ u ∈ t.log, urlNetloc u = urlNetloc exampleCfg.baseDomain := by
  obtain ⟨hext, hlog⟩ := c5_domain_containment 10 exampleCfg exampleStart _
    (by decide) (by decide) rfl
  exact ⟨_, rfl, hlog⟩

end SeoAnalyzer
